import Mathlib

/-!
# Verification of the `jumper` directory-bookmarking tool

Shallow embedding of `main.go`: the bookmark store is a flat text file,
modelled as a `String`; each command is modelled as a pure function from
the file content (and the other inputs the process reads) to the file
content it leaves behind, the text it prints, and its exit code.
-/

set_option autoImplicit false

namespace Jumper

/-- Whitespace test matching Go's `unicode.IsSpace` (the Unicode
`White_Space` property), used by `strings.TrimSpace`. -/
def goIsSpace (c : Char) : Bool :=
  c.val = 9 || c.val = 10 || c.val = 11 || c.val = 12 || c.val = 13 ||
  c.val = 32 || c.val = 0x85 || c.val = 0xA0 || c.val = 0x1680 ||
  (0x2000 ≤ c.val && c.val ≤ 0x200A) || c.val = 0x2028 || c.val = 0x2029 ||
  c.val = 0x202F || c.val = 0x205F || c.val = 0x3000

/-- `strings.TrimSpace`: remove leading and trailing whitespace
(here: trailing first, then leading; the result is the same). -/
def trimList (l : List Char) : List Char :=
  ((l.reverse.dropWhile goIsSpace).reverse).dropWhile goIsSpace

/-- `bufio.ScanLines` helper `dropCR`: drop one trailing carriage return. -/
def dropCR (l : List Char) : List Char :=
  match l.reverse with
  | '\r' :: r => r.reverse
  | _ => l

/-- Split a character sequence at every newline; the separators are
consumed, and a trailing newline yields a final empty segment. -/
def splitOnNL : List Char → List (List Char)
  | [] => [[]]
  | c :: cs =>
    if c = '\n' then [] :: splitOnNL cs
    else
      match splitOnNL cs with
      | [] => [[c]]
      | t :: ts => (c :: t) :: ts

/-- The tokens produced by a `bufio.Scanner` with the `ScanLines` split
function: the newline-separated segments, except that the empty segment
after a final newline yields no token, and each token has a trailing
carriage return removed. -/
def scanTokens (cs : List Char) : List (List Char) :=
  let segs := splitOnNL cs
  (if segs.getLast? = some [] then segs.dropLast else segs).map dropCR

/-- The loop body of `readFolderList`: trim each scanned line and keep
the non-blank ones, in order. -/
def processLines : List (List Char) → List String
  | [] => []
  | t :: ts =>
    let line := trimList t
    if line = [] then processLines ts else String.mk line :: processLines ts

/-- `readFolderList` (main.go:152-173), as a function of the config-file
content: scan the file line by line, trim whitespace, keep non-blank
lines in order. -/
def readFolderList (c : String) : List String :=
  processLines (scanTokens c.data)

/-- `filepath.Base` on Unix: strip trailing slashes, then keep the part
after the last slash; `""` gives `"."` and an all-slash path gives `"/"`. -/
def base (s : String) : String :=
  if s.data = [] then "."
  else
    let l := (s.data.reverse.dropWhile (fun c => c = '/')).reverse
    if l = [] then "/"
    else String.mk (l.reverse.takeWhile (fun c => c ≠ '/')).reverse

/-- Accumulate a decimal digit string; fails on a non-digit. -/
def parseDigitsAux : List Char → Nat → Option Nat
  | [], acc => some acc
  | c :: cs, acc =>
    if '0' ≤ c ∧ c ≤ '9' then parseDigitsAux cs (acc * 10 + (c.toNat - '0'.toNat))
    else none

/-- The digits-and-range part of `strconv.Atoi`: at least one digit, and
the signed value must fit a 64-bit `int` (otherwise Go reports `ErrRange`). -/
def atoiDigits (sign : Int) (digits : List Char) : Option Int :=
  match digits with
  | [] => none
  | _ =>
    match parseDigitsAux digits 0 with
    | none => none
    | some n =>
      if -(2 ^ 63) ≤ sign * (n : Int) ∧ sign * (n : Int) ≤ 2 ^ 63 - 1 then
        some (sign * (n : Int))
      else none

/-- `strconv.Atoi`: optional sign, then decimal digits, 64-bit range. -/
def atoi (s : String) : Option Int :=
  match s.data with
  | [] => none
  | '-' :: r => atoiDigits (-1) r
  | '+' :: r => atoiDigits 1 r
  | r => atoiDigits 1 r

/-- The name-matching loop of `jumpToFolder` (main.go:122-127): return
the first folder whose base name or full path equals the argument. -/
def findMatch (arg : String) : List String → Option String
  | [] => none
  | f :: fs => if base f == arg || f == arg then some f else findMatch arg fs

/-- The name-matching loop of `removeFolder` (main.go:288-293): return
the position of the first folder whose base name or full path equals the
argument, counting from `i`. -/
def findMatchIdx (arg : String) : List String → Nat → Option Nat
  | [], _ => none
  | f :: fs, i => if base f == arg || f == arg then some i else findMatchIdx arg fs (i + 1)

/-- The folder `jumpToFolder` (main.go:116-127) selects: a 1-based
in-range numeric argument indexes the list directly, anything else is
matched against base names and full paths. -/
def jumpResolve (folders : List String) (arg : String) : Option String :=
  match atoi arg with
  | some num =>
    if 0 < num ∧ num ≤ (folders.length : Int) then folders.get? (num.toNat - 1)
    else findMatch arg folders
  | none => findMatch arg folders

/-- The index `removeFolder` (main.go:281-294) selects, by the same two
rules; `none` models the `-1` sentinel. -/
def removeIndex (folders : List String) (arg : String) : Option Nat :=
  match atoi arg with
  | some num =>
    if 0 < num ∧ num ≤ (folders.length : Int) then some (num.toNat - 1)
    else findMatchIdx arg folders 0
  | none => findMatchIdx arg folders 0

/-- `jumpToFolder` (main.go:109-130) as (stdout, exit code); the input is
`none` when the config file cannot be read (silent exit 1). On success
`fmt.Print` writes the bare path, no newline, and the process exits 0. -/
def jumpToFolder (content? : Option String) (arg : String) : String × Nat :=
  match content? with
  | none => ("", 1)
  | some c =>
    match jumpResolve (readFolderList c) arg with
    | some folder => (folder, 0)
    | none => ("", 1)

/-- Sequential `WriteString folder + "\n"` over a list, and also the glue
for building expected outputs. -/
def writeLines : List String → String
  | [] => ""
  | p :: ps => p ++ "\n" ++ writeLines ps

/-- Plain concatenation of a list of strings. -/
def joinStrings : List String → String
  | [] => ""
  | s :: t => s ++ joinStrings t

/-- The printing loop of `listFolders` (main.go:146-148): each folder on
its own line, prefixed with its 1-based index, starting at index `i`. -/
def listLines : List String → Nat → String
  | [], _ => ""
  | f :: fs, i => toString (i + 1) ++ ". " ++ f ++ "\n" ++ listLines fs (i + 1)

/-- `listFolders` (main.go:133-149) as (stdout, exit code), given a
readable config file. -/
def listFolders (c : String) : String × Nat :=
  let folders := readFolderList c
  if folders = [] then
    ("No folders in jump list. Use \x27jumper add\x27 to add the current folder.\n", 0)
  else
    ("Available folders:\n" ++ listLines folders 0, 0)

/-- Result of `addFolder`: the config file it leaves behind and what it
prints (it always exits 0 once the file was read). -/
structure AddResult where
  newContent : String
  stdout : String
deriving DecidableEq

/-- `addFolder` (main.go:70-106): append the current directory to the
config file unless it is already listed. -/
def addFolder (c : String) (currentDir : String) : AddResult :=
  let folders := readFolderList c
  if currentDir ∈ folders then
    ⟨c, "Current folder already in the list: " ++ currentDir ++ "\n"⟩
  else
    ⟨c ++ currentDir ++ "\n", "Added current folder to jump list: " ++ currentDir ++ "\n"⟩

/-- Result of `removeFolder`: the config file it leaves behind, both
output streams, and the exit code. -/
structure RemoveResult where
  newContent : String
  stdout : String
  stderr : String
  exitCode : Nat
deriving DecidableEq

/-- `removeFolder` (main.go:269-321): an empty list is reported and left
alone; an unmatched argument is an error; otherwise the selected entry is
dropped and the whole list is rewritten. -/
def removeFolder (c : String) (arg : String) : RemoveResult :=
  let folders := readFolderList c
  if folders = [] then
    ⟨c, "No folders in jump list.\n", "", 0⟩
  else
    match removeIndex folders arg with
    | none => ⟨c, "", "Folder not found: " ++ arg ++ "\n", 1⟩
    | some i =>
      let removed := (folders.get? i).getD ""
      ⟨writeLines (folders.eraseIdx i),
       "Removed folder: " ++ removed ++ "\n", "", 0⟩

/-- An entry the store can faithfully round-trip: non-empty, no newline,
and no leading or trailing whitespace. -/
def cleanEntry (p : String) : Bool :=
  !p.data.isEmpty &&
  p.data.all (fun c => !(c == '\n')) &&
  (match p.data.head? with | some h => !goIsSpace h | none => true) &&
  (match p.data.getLast? with | some h => !goIsSpace h | none => true)

/-! ## Basic string and list facts -/

theorem mk_data (s : String) : String.mk s.data = s := by
  cases s
  rfl

theorem data_mk (l : List Char) : (String.mk l).data = l := rfl

theorem mk_eq_empty (l : List Char) : String.mk l = "" ↔ l = [] := by
  constructor
  · intro h
    have := congrArg String.data h
    simpa using this
  · intro h
    subst h
    rfl

theorem sdata_append (s t : String) : (s ++ t).data = s.data ++ t.data := by
  cases s
  cases t
  rfl

/-! ## `splitOnNL` -/

theorem splitOnNL_ne_nil : ∀ cs : List Char, splitOnNL cs ≠ []
  | [] => by simp [splitOnNL]
  | c :: cs => by
    simp only [splitOnNL]
    split
    · simp
    · split
      · simp
      · simp

theorem splitOnNL_cons_nl (cs : List Char) :
    splitOnNL ('\n' :: cs) = [] :: splitOnNL cs := by
  simp [splitOnNL]

theorem splitOnNL_cons_ne (c : Char) (cs : List Char) (hc : ¬c = '\n') (t : List Char)
    (ts : List (List Char)) (h : splitOnNL cs = t :: ts) :
    splitOnNL (c :: cs) = (c :: t) :: ts := by
  simp only [splitOnNL, if_neg hc, h]

theorem splitOnNL_dest (cs : List Char) : ∃ t ts, splitOnNL cs = t :: ts := by
  cases h : splitOnNL cs with
  | nil => exact absurd h (splitOnNL_ne_nil cs)
  | cons t ts => exact ⟨t, ts, rfl⟩

theorem splitOnNL_append : ∀ xs ys : List Char,
    splitOnNL (xs ++ '\n' :: ys) = splitOnNL xs ++ splitOnNL ys
  | [], ys => by simp [splitOnNL]
  | c :: xs, ys => by
    have ih := splitOnNL_append xs ys
    by_cases hc : c = '\n'
    · subst hc
      rw [List.cons_append, splitOnNL_cons_nl, splitOnNL_cons_nl, ih, List.cons_append]
    · obtain ⟨t, ts, h⟩ := splitOnNL_dest xs
      have h2 : splitOnNL (xs ++ '\n' :: ys) = t :: (ts ++ splitOnNL ys) := by
        rw [ih, h, List.cons_append]
      rw [List.cons_append, splitOnNL_cons_ne c _ hc _ _ h2,
        splitOnNL_cons_ne c _ hc _ _ h, List.cons_append]

theorem splitOnNL_concat_nl (xs : List Char) :
    splitOnNL (xs ++ ['\n']) = splitOnNL xs ++ [[]] := by
  have h := splitOnNL_append xs []
  simpa [splitOnNL] using h

theorem splitOnNL_no_nl : ∀ cs : List Char, '\n' ∉ cs → splitOnNL cs = [cs]
  | [], _ => rfl
  | c :: cs, h => by
    have hc : ¬c = '\n' := fun hh => h (hh ▸ List.mem_cons_self c cs)
    have hcs : '\n' ∉ cs := fun hh => h (List.mem_cons_of_mem c hh)
    simp only [splitOnNL, if_neg hc, splitOnNL_no_nl cs hcs]

theorem no_nl_of_mem_splitOnNL : ∀ (cs t : List Char), t ∈ splitOnNL cs → '\n' ∉ t
  | [], t, ht => by
    have : t = [] := by simpa [splitOnNL] using ht
    simp [this]
  | c :: cs, t, ht => by
    by_cases hc : c = '\n'
    · subst hc
      rw [splitOnNL_cons_nl] at ht
      rcases List.mem_cons.mp ht with h | h
      · simp [h]
      · exact no_nl_of_mem_splitOnNL cs t h
    · obtain ⟨u, us, hs⟩ := splitOnNL_dest cs
      rw [splitOnNL_cons_ne c _ hc _ _ hs] at ht
      rcases List.mem_cons.mp ht with h | h
      · subst h
        intro hmem
        rcases List.mem_cons.mp hmem with h1 | h1
        · exact hc h1.symm
        · exact no_nl_of_mem_splitOnNL cs u (hs ▸ List.mem_cons_self u us) h1
      · exact no_nl_of_mem_splitOnNL cs t (hs ▸ List.mem_cons_of_mem u h)

/-! ## `dropWhile`, `trimList`, `dropCR` -/

theorem dropWhile_head_false {p : Char → Bool} :
    ∀ (l : List Char) {h : Char}, (l.dropWhile p).head? = some h → p h = false
  | [], h => by simp [List.dropWhile]
  | c :: cs, h => by
    rw [List.dropWhile_cons]
    split
    · exact dropWhile_head_false cs
    · intro hh
      simp only [List.head?_cons, Option.some.injEq] at hh
      subst hh
      simp_all

theorem dropWhile_eq_self {p : Char → Bool} (l : List Char)
    (h : ∀ c, l.head? = some c → p c = false) : l.dropWhile p = l := by
  cases l with
  | nil => rfl
  | cons c cs =>
    rw [List.dropWhile_cons]
    simp [h c rfl]

theorem mem_of_mem_dropWhile {p : Char → Bool} :
    ∀ (l : List Char) {x : Char}, x ∈ l.dropWhile p → x ∈ l
  | [], x, hx => by simp [List.dropWhile] at hx
  | c :: cs, x, hx => by
    rw [List.dropWhile_cons] at hx
    split at hx
    · exact List.mem_cons_of_mem c (mem_of_mem_dropWhile cs hx)
    · exact hx

theorem getLast?_dropWhile {p : Char → Bool} :
    ∀ l : List Char, l.dropWhile p ≠ [] → (l.dropWhile p).getLast? = l.getLast?
  | [], h => by simp [List.dropWhile] at h
  | c :: cs, h => by
    rw [List.dropWhile_cons] at h ⊢
    by_cases hp : p c = true
    · rw [if_pos hp] at h ⊢
      have hcs : cs ≠ [] := by
        intro hnil
        rw [hnil] at h
        simp [List.dropWhile] at h
      rw [getLast?_dropWhile cs h]
      cases cs with
      | nil => exact absurd rfl hcs
      | cons d ds => simp [List.getLast?_cons_cons]
    · rw [if_neg hp]

theorem trimList_nil : trimList [] = [] := rfl

theorem trim_eq_self (l : List Char)
    (hh : ∀ c, l.head? = some c → goIsSpace c = false)
    (hl : ∀ c, l.getLast? = some c → goIsSpace c = false) : trimList l = l := by
  unfold trimList
  rw [dropWhile_eq_self l.reverse (by simpa [List.head?_reverse] using hl)]
  rw [List.reverse_reverse]
  exact dropWhile_eq_self l hh

theorem trim_head_false (l : List Char) {h : Char}
    (hh : (trimList l).head? = some h) : goIsSpace h = false :=
  dropWhile_head_false _ hh

theorem trim_getLast_false (l : List Char) {h : Char}
    (hh : (trimList l).getLast? = some h) : goIsSpace h = false := by
  have hne : trimList l ≠ [] := by
    intro hnil
    rw [hnil] at hh
    simp at hh
  unfold trimList at hh hne
  rw [getLast?_dropWhile _ hne, List.getLast?_reverse] at hh
  exact dropWhile_head_false _ hh

theorem mem_of_mem_trim {x : Char} {l : List Char} (hx : x ∈ trimList l) : x ∈ l := by
  unfold trimList at hx
  have h1 := mem_of_mem_dropWhile _ hx
  rw [List.mem_reverse] at h1
  have h2 := mem_of_mem_dropWhile _ h1
  rwa [List.mem_reverse] at h2

theorem trim_dropCR (t : List Char) : trimList (dropCR t) = trimList t := by
  unfold dropCR
  split
  · rename_i r hr
    unfold trimList
    rw [List.reverse_reverse, hr]
    have : List.dropWhile goIsSpace ('\r' :: r) = List.dropWhile goIsSpace r := by
      rw [List.dropWhile_cons]
      simp [goIsSpace]
    rw [this]
  · rfl

theorem dropCR_of_getLast (t : List Char) (h : t.getLast? ≠ some '\r') : dropCR t = t := by
  unfold dropCR
  split
  · rename_i r hr
    exfalso
    apply h
    rw [← List.head?_reverse, hr]
    rfl
  · rfl

/-! ## `cleanEntry` -/

theorem clean_parts {p : String} (h : cleanEntry p = true) :
    p.data ≠ [] ∧ '\n' ∉ p.data ∧
      (∀ c, p.data.head? = some c → goIsSpace c = false) ∧
      (∀ c, p.data.getLast? = some c → goIsSpace c = false) := by
  unfold cleanEntry at h
  simp only [Bool.and_eq_true] at h
  obtain ⟨⟨⟨h1, h2⟩, h3⟩, h4⟩ := h
  refine ⟨?_, ?_, ?_, ?_⟩
  · intro hnil
    rw [hnil] at h1
    simp at h1
  · intro hmem
    rw [List.all_eq_true] at h2
    have := h2 _ hmem
    simp at this
  · intro c hc
    rw [hc] at h3
    simpa using h3
  · intro c hc
    rw [hc] at h4
    simpa using h4

theorem clean_intro {p : String} (h1 : p.data ≠ []) (h2 : '\n' ∉ p.data)
    (h3 : ∀ c, p.data.head? = some c → goIsSpace c = false)
    (h4 : ∀ c, p.data.getLast? = some c → goIsSpace c = false) :
    cleanEntry p = true := by
  unfold cleanEntry
  simp only [Bool.and_eq_true]
  refine ⟨⟨⟨?_, ?_⟩, ?_⟩, ?_⟩
  · simpa using h1
  · rw [List.all_eq_true]
    intro c hc
    have : c ≠ '\n' := fun hh => h2 (hh ▸ hc)
    simp [this]
  · cases hh : p.data.head? with
    | none => rfl
    | some c => simp [h3 c hh]
  · cases hh : p.data.getLast? with
    | none => rfl
    | some c => simp [h4 c hh]

theorem clean_trim {p : String} (h : cleanEntry p = true) : trimList p.data = p.data :=
  trim_eq_self _ (clean_parts h).2.2.1 (clean_parts h).2.2.2

theorem clean_dropCR {p : String} (h : cleanEntry p = true) : dropCR p.data = p.data := by
  apply dropCR_of_getLast
  intro hc
  have := (clean_parts h).2.2.2 '\r' hc
  exact absurd this (by decide)

/-! ## `processLines` -/

theorem processLines_cons (t : List Char) (ts : List (List Char)) :
    processLines (t :: ts) =
      if trimList t = [] then processLines ts
      else String.mk (trimList t) :: processLines ts := rfl

theorem processLines_append : ∀ a b : List (List Char),
    processLines (a ++ b) = processLines a ++ processLines b
  | [], _ => rfl
  | t :: a, b => by
    rw [List.cons_append, processLines_cons, processLines_cons, processLines_append a b]
    split
    · rfl
    · rw [List.cons_append]

theorem processLines_map_dropCR : ∀ ts : List (List Char),
    processLines (ts.map dropCR) = processLines ts
  | [] => rfl
  | t :: ts => by
    rw [List.map_cons, processLines_cons, processLines_cons, trim_dropCR,
      processLines_map_dropCR ts]

theorem processLines_eq_filter : ∀ ts : List (List Char),
    processLines ts =
      (ts.map fun t => String.mk (trimList t)).filter (fun s => !(s == ""))
  | [] => rfl
  | t :: ts => by
    rw [List.map_cons, List.filter_cons, processLines_cons, processLines_eq_filter ts]
    by_cases h : trimList t = []
    · rw [if_pos h]
      have hb : (String.mk (trimList t) == "") = true := by
        rw [h]
        decide
      simp [hb]
    · rw [if_neg h]
      have hb : (String.mk (trimList t) == "") = false := by
        rw [beq_eq_false_iff_ne]
        intro hh
        exact h ((mk_eq_empty _).mp hh)
      simp [hb]

/-! ## Structure of `readFolderList` -/

theorem dropLast_cons_of_ne_nil {α : Type} (l : List α) (h : l ≠ []) (a : α) :
    (a :: l).dropLast = a :: l.dropLast := by
  cases l with
  | nil => exact absurd rfl h
  | cons b bs => rfl

theorem readFolderList_cons (p : String) (hp : cleanEntry p = true) (rest : String) :
    readFolderList (p ++ "\n" ++ rest) = p :: readFolderList rest := by
  obtain ⟨h1, h2, _, _⟩ := clean_parts hp
  obtain ⟨u, us, hu⟩ := splitOnNL_dest rest.data
  have hdata : (p ++ "\n" ++ rest).data = p.data ++ '\n' :: rest.data := by
    have hn : ("\n" : String).data = ['\n'] := rfl
    simp [sdata_append, hn]
  have hsegs : splitOnNL (p ++ "\n" ++ rest).data = p.data :: u :: us := by
    rw [hdata, splitOnNL_append, splitOnNL_no_nl p.data h2, hu]
    rfl
  have hscan : scanTokens (p ++ "\n" ++ rest).data = p.data :: scanTokens rest.data := by
    simp only [scanTokens]
    rw [hsegs, hu, List.getLast?_cons_cons]
    by_cases hcond : (u :: us).getLast? = some []
    · rw [if_pos hcond, if_pos hcond,
        dropLast_cons_of_ne_nil (u :: us) (by simp) p.data,
        List.map_cons, clean_dropCR hp]
    · rw [if_neg hcond, if_neg hcond, List.map_cons, clean_dropCR hp]
  unfold readFolderList
  rw [hscan, processLines_cons, clean_trim hp, if_neg h1, mk_data]

theorem readFolderList_writeLines : ∀ l : List String,
    (∀ p ∈ l, cleanEntry p = true) → readFolderList (writeLines l) = l
  | [], _ => rfl
  | p :: ps, h => by
    rw [writeLines, readFolderList_cons p (h p (List.mem_cons_self p ps)) (writeLines ps),
      readFolderList_writeLines ps (fun q hq => h q (List.mem_cons_of_mem p hq))]

theorem clean_of_mem_processLines : ∀ (ts : List (List Char)) (q : String),
    q ∈ processLines ts → (∀ t ∈ ts, '\n' ∉ t) → cleanEntry q = true
  | [], q, hq, _ => by simp [processLines] at hq
  | t :: ts, q, hq, hnl => by
    rw [processLines_cons] at hq
    by_cases h : trimList t = []
    · rw [if_pos h] at hq
      exact clean_of_mem_processLines ts q hq (fun u hu => hnl u (List.mem_cons_of_mem t hu))
    · rw [if_neg h] at hq
      rcases List.mem_cons.mp hq with h1 | h1
      · subst h1
        apply clean_intro
        · simpa [data_mk] using h
        · rw [data_mk]
          intro hmem
          exact hnl t (List.mem_cons_self t ts) (mem_of_mem_trim hmem)
        · rw [data_mk]
          intro c hc
          exact trim_head_false t hc
        · rw [data_mk]
          intro c hc
          exact trim_getLast_false t hc
      · exact clean_of_mem_processLines ts q h1 (fun u hu => hnl u (List.mem_cons_of_mem t hu))

theorem clean_of_mem_readFolderList (c : String) (q : String)
    (hq : q ∈ readFolderList c) : cleanEntry q = true := by
  apply clean_of_mem_processLines (scanTokens c.data) q hq
  intro t ht
  simp only [scanTokens] at ht
  rw [List.mem_map] at ht
  obtain ⟨seg, hseg, rfl⟩ := ht
  have hseg' : seg ∈ splitOnNL c.data := by
    by_cases hcond : (splitOnNL c.data).getLast? = some []
    · rw [if_pos hcond] at hseg
      exact List.mem_of_mem_dropLast hseg
    · rwa [if_neg hcond] at hseg
  have hnl := no_nl_of_mem_splitOnNL c.data seg hseg'
  intro hmem
  apply hnl
  unfold dropCR at hmem
  split at hmem
  · rename_i r hr
    rw [List.mem_reverse] at hmem
    have hmem2 : '\n' ∈ seg.reverse := by
      rw [hr]
      exact List.mem_cons_of_mem _ hmem
    rwa [List.mem_reverse] at hmem2
  · exact hmem

theorem readFolderList_eq_spec (c : String) :
    readFolderList c =
      ((splitOnNL c.data).map fun t => String.mk (trimList t)).filter
        (fun s => !(s == "")) := by
  unfold readFolderList
  simp only [scanTokens]
  rw [processLines_map_dropCR]
  by_cases hcond : (splitOnNL c.data).getLast? = some []
  · rw [if_pos hcond]
    have hd : (splitOnNL c.data).dropLast ++ [[]] = splitOnNL c.data :=
      List.dropLast_append_getLast? _ (Option.mem_def.mpr hcond)
    have h2 : processLines (splitOnNL c.data) =
        processLines (splitOnNL c.data).dropLast := by
      conv_lhs => rw [← hd]
      rw [processLines_append]
      simp [processLines, trimList_nil]
    rw [← h2, processLines_eq_filter]
  · rw [if_neg hcond, processLines_eq_filter]

/-! ## The two matching loops -/

theorem findMatch_eq_find? (arg : String) : ∀ l : List String,
    findMatch arg l = l.find? (fun f => base f == arg || f == arg)
  | [] => rfl
  | f :: fs => by
    rw [findMatch]
    by_cases h : (base f == arg || f == arg) = true
    · rw [if_pos h, List.find?_cons, h]
    · have hb : (base f == arg || f == arg) = false := by simpa using h
      rw [if_neg h, List.find?_cons, hb, findMatch_eq_find? arg fs]

theorem findMatchIdx_shift (arg : String) : ∀ (l : List String) (i : Nat),
    findMatchIdx arg l (i + 1) = (findMatchIdx arg l i).map (· + 1)
  | [], _ => rfl
  | f :: fs, i => by
    rw [findMatchIdx, findMatchIdx]
    by_cases h : (base f == arg || f == arg) = true
    · rw [if_pos h, if_pos h]
      rfl
    · rw [if_neg h, if_neg h, findMatchIdx_shift arg fs (i + 1)]

theorem findMatch_eq_idx (arg : String) : ∀ l : List String,
    findMatch arg l = (findMatchIdx arg l 0).bind l.get?
  | [] => rfl
  | f :: fs => by
    rw [findMatch, findMatchIdx]
    by_cases h : (base f == arg || f == arg) = true
    · rw [if_pos h, if_pos h]
      rfl
    · rw [if_neg h, if_neg h, findMatch_eq_idx arg fs, findMatchIdx_shift arg fs 0]
      cases findMatchIdx arg fs 0 with
      | none => rfl
      | some i => rfl

/-! ## `eraseIdx` and `count` -/

theorem eraseIdx_get?_lt {α : Type} : ∀ (l : List α) (i j : Nat), j < i →
    (l.eraseIdx i).get? j = l.get? j
  | [], _, _, _ => rfl
  | _ :: _, 0, j, h => absurd h (Nat.not_lt_zero j)
  | _ :: _, _ + 1, 0, _ => rfl
  | _ :: t, i + 1, j + 1, h => eraseIdx_get?_lt t i j (Nat.lt_of_succ_lt_succ h)

theorem eraseIdx_get?_ge {α : Type} : ∀ (l : List α) (i k : Nat), i ≤ k →
    (l.eraseIdx i).get? k = l.get? (k + 1)
  | [], _, _, _ => rfl
  | _ :: _, 0, _, _ => rfl
  | _ :: _, _ + 1, 0, h => absurd h (by omega)
  | _ :: t, i + 1, k + 1, h => eraseIdx_get?_ge t i k (Nat.le_of_succ_le_succ h)

theorem count_eraseIdx_succ {α : Type} [DecidableEq α] : ∀ (l : List α) (i : Nat) (p : α),
    l.get? i = some p → (l.eraseIdx i).count p + 1 = l.count p
  | [], _, _, h => by simp at h
  | a :: t, 0, p, h => by
    simp only [List.get?_cons_zero, Option.some.injEq] at h
    subst h
    rw [show (a :: t).eraseIdx 0 = t from rfl, List.count_cons_self]
  | a :: t, i + 1, p, h => by
    have h' : t.get? i = some p := h
    have ih := count_eraseIdx_succ t i p h'
    rw [show (a :: t).eraseIdx (i + 1) = a :: t.eraseIdx i from rfl]
    by_cases hap : p = a
    · subst hap
      rw [List.count_cons_self, List.count_cons_self]
      omega
    · rw [List.count_cons_of_ne hap, List.count_cons_of_ne hap]
      exact ih

theorem mem_of_mem_eraseIdx {α : Type} : ∀ (l : List α) (i : Nat) {x : α},
    x ∈ l.eraseIdx i → x ∈ l
  | [], i, x, h => by
    rw [show ([] : List α).eraseIdx i = [] from rfl] at h
    exact absurd h (List.not_mem_nil x)
  | a :: t, 0, x, h => List.mem_cons_of_mem a h
  | a :: t, i + 1, x, h => by
    rw [show (a :: t).eraseIdx (i + 1) = a :: t.eraseIdx i from rfl] at h
    rcases List.mem_cons.mp h with h1 | h1
    · exact h1 ▸ List.mem_cons_self a t
    · exact List.mem_cons_of_mem a (mem_of_mem_eraseIdx t i h1)

/-! ## Appending one entry to a well-terminated store -/

theorem scanTokens_concat_nl (d : List Char) :
    scanTokens (d ++ ['\n']) = (splitOnNL d).map dropCR := by
  simp only [scanTokens]
  rw [splitOnNL_concat_nl d, List.getLast?_concat, if_pos rfl, List.dropLast_concat]

theorem scanTokens_append_line (d : List Char) (p : String) (hp : cleanEntry p = true) :
    scanTokens (d ++ '\n' :: (p.data ++ ['\n'])) = (splitOnNL d).map dropCR ++ [p.data] := by
  obtain ⟨_, h2, _, _⟩ := clean_parts hp
  simp only [scanTokens]
  rw [splitOnNL_append, splitOnNL_concat_nl, splitOnNL_no_nl p.data h2]
  have hre : splitOnNL d ++ ([p.data] ++ [[]]) = (splitOnNL d ++ [p.data]) ++ [[]] := by
    rw [List.append_assoc]
  rw [hre, List.getLast?_concat, if_pos rfl, List.dropLast_concat, List.map_append]
  simp [clean_dropCR hp]

theorem processLines_singleton (p : String) (hp : cleanEntry p = true) :
    processLines [p.data] = [p] := by
  rw [processLines_cons, clean_trim hp, if_neg (clean_parts hp).1, mk_data]
  rfl

theorem readFolderList_append_entry (c p : String)
    (hterm : c.data = [] ∨ c.data.getLast? = some '\n')
    (hp : cleanEntry p = true) :
    readFolderList (c ++ p ++ "\n") = readFolderList c ++ [p] := by
  obtain ⟨h1, h2, _, _⟩ := clean_parts hp
  have hn : ("\n" : String).data = ['\n'] := rfl
  rcases hterm with hc | hc
  · have hdata : (c ++ p ++ "\n").data = p.data ++ ['\n'] := by
      simp [sdata_append, hn, hc]
    have hcz : readFolderList c = [] := by
      unfold readFolderList
      rw [hc]
      decide
    unfold readFolderList
    rw [hdata, scanTokens_concat_nl, splitOnNL_no_nl p.data h2]
    simp only [List.map_cons, List.map_nil]
    rw [clean_dropCR hp]
    rw [show processLines (scanTokens c.data) = readFolderList c from rfl, hcz,
      List.nil_append]
    exact processLines_singleton p hp
  · have hd : c.data.dropLast ++ ['\n'] = c.data :=
      List.dropLast_append_getLast? _ (Option.mem_def.mpr hc)
    have hdata : (c ++ p ++ "\n").data = c.data.dropLast ++ '\n' :: (p.data ++ ['\n']) := by
      simp only [sdata_append, hn]
      rw [← hd]
      simp [List.append_assoc]
    have hrc : processLines (scanTokens c.data) =
        processLines ((splitOnNL c.data.dropLast).map dropCR) := by
      conv_lhs => rw [← hd]
      rw [scanTokens_concat_nl]
    unfold readFolderList
    rw [hdata, scanTokens_append_line _ p hp, processLines_append,
      processLines_singleton p hp, hrc]

/-! ## Unfolding the commands -/

theorem jumpResolve_atoi_some {folders : List String} {arg : String} {num : Int}
    (h : atoi arg = some num) :
    jumpResolve folders arg =
      if 0 < num ∧ num ≤ (folders.length : Int) then folders.get? (num.toNat - 1)
      else findMatch arg folders := by
  unfold jumpResolve
  rw [h]

theorem jumpResolve_atoi_none {folders : List String} {arg : String}
    (h : atoi arg = none) : jumpResolve folders arg = findMatch arg folders := by
  unfold jumpResolve
  rw [h]

theorem removeIndex_atoi_some {folders : List String} {arg : String} {num : Int}
    (h : atoi arg = some num) :
    removeIndex folders arg =
      if 0 < num ∧ num ≤ (folders.length : Int) then some (num.toNat - 1)
      else findMatchIdx arg folders 0 := by
  unfold removeIndex
  rw [h]

theorem removeIndex_atoi_none {folders : List String} {arg : String}
    (h : atoi arg = none) : removeIndex folders arg = findMatchIdx arg folders 0 := by
  unfold removeIndex
  rw [h]

theorem addFolder_mem {c p : String} (h : p ∈ readFolderList c) :
    addFolder c p = ⟨c, "Current folder already in the list: " ++ p ++ "\n"⟩ := by
  simp only [addFolder]
  rw [if_pos h]

theorem addFolder_not_mem {c p : String} (h : p ∉ readFolderList c) :
    addFolder c p = ⟨c ++ p ++ "\n", "Added current folder to jump list: " ++ p ++ "\n"⟩ := by
  simp only [addFolder]
  rw [if_neg h]

theorem addFolder_mem_newContent {c p : String} (h : p ∈ readFolderList c) :
    (addFolder c p).newContent = c := by
  rw [addFolder_mem h]

theorem addFolder_mem_stdout {c p : String} (h : p ∈ readFolderList c) :
    (addFolder c p).stdout = "Current folder already in the list: " ++ p ++ "\n" := by
  rw [addFolder_mem h]

theorem addFolder_not_mem_newContent {c p : String} (h : p ∉ readFolderList c) :
    (addFolder c p).newContent = c ++ p ++ "\n" := by
  rw [addFolder_not_mem h]

theorem removeFolder_empty {c arg : String} (h : readFolderList c = []) :
    removeFolder c arg = ⟨c, "No folders in jump list.\n", "", 0⟩ := by
  simp only [removeFolder]
  rw [if_pos h]

theorem removeFolder_notfound {c arg : String} (hne : readFolderList c ≠ [])
    (h : removeIndex (readFolderList c) arg = none) :
    removeFolder c arg = ⟨c, "", "Folder not found: " ++ arg ++ "\n", 1⟩ := by
  simp only [removeFolder]
  rw [if_neg hne, h]

theorem removeFolder_found {c arg : String} {i : Nat} (hne : readFolderList c ≠ [])
    (h : removeIndex (readFolderList c) arg = some i) :
    removeFolder c arg = ⟨writeLines ((readFolderList c).eraseIdx i),
      "Removed folder: " ++ ((readFolderList c).get? i).getD "" ++ "\n", "", 0⟩ := by
  simp only [removeFolder]
  rw [if_neg hne, h]

theorem removeFolder_found_newContent {c arg : String} {i : Nat}
    (hne : readFolderList c ≠ []) (h : removeIndex (readFolderList c) arg = some i) :
    (removeFolder c arg).newContent = writeLines ((readFolderList c).eraseIdx i) := by
  rw [removeFolder_found hne h]

theorem jumpToFolder_resolved {c arg p : String}
    (h : jumpResolve (readFolderList c) arg = some p) :
    jumpToFolder (some c) arg = (p, 0) := by
  simp only [jumpToFolder]
  rw [h]

theorem jumpToFolder_unresolved {c arg : String}
    (h : jumpResolve (readFolderList c) arg = none) :
    jumpToFolder (some c) arg = ("", 1) := by
  simp only [jumpToFolder]
  rw [h]

theorem listLines_eq_enumFrom : ∀ (fs : List String) (i : Nat),
    listLines fs i = joinStrings ((fs.enumFrom i).map
      (fun pr => toString (pr.1 + 1) ++ ". " ++ pr.2 ++ "\n"))
  | [], _ => rfl
  | f :: fs, i => by
    rw [listLines,
      show (f :: fs).enumFrom i = (i, f) :: fs.enumFrom (i + 1) from rfl,
      List.map_cons, show joinStrings ((toString (i + 1) ++ ". " ++ f ++ "\n") ::
        (fs.enumFrom (i + 1)).map
          (fun pr => toString (pr.1 + 1) ++ ". " ++ pr.2 ++ "\n")) =
        (toString (i + 1) ++ ". " ++ f ++ "\n") ++
          joinStrings ((fs.enumFrom (i + 1)).map
            (fun pr => toString (pr.1 + 1) ++ ". " ++ pr.2 ++ "\n")) from rfl,
      listLines_eq_enumFrom fs (i + 1)]

/-! ## The claims -/

/-- C1: for every token and bookmark list, if the token parses as a
positive integer `n` with `1 ≤ n ≤ length`, resolution returns the
element at position `n - 1`; otherwise it returns the first entry whose
base name or full path equals the token; if neither matches, the outcome
is not-found. -/
theorem C1_resolver_contract (folders : List String) (token : String) :
    (∀ n : Int, atoi token = some n → 0 < n → n ≤ (folders.length : Int) →
      jumpResolve folders token = folders.get? (n.toNat - 1)) ∧
    ((∀ n : Int, atoi token = some n → ¬(0 < n ∧ n ≤ (folders.length : Int))) →
      jumpResolve folders token =
        folders.find? (fun f => base f == token || f == token)) ∧
    ((∀ n : Int, atoi token = some n → ¬(0 < n ∧ n ≤ (folders.length : Int))) →
      (∀ f ∈ folders, ¬(base f = token ∨ f = token)) →
      jumpResolve folders token = none) := by
  have hfind : (∀ n : Int, atoi token = some n →
      ¬(0 < n ∧ n ≤ (folders.length : Int))) →
      jumpResolve folders token =
        folders.find? (fun f => base f == token || f == token) := by
    intro hno
    cases h : atoi token with
    | none => rw [jumpResolve_atoi_none h, findMatch_eq_find? token folders]
    | some num =>
      rw [jumpResolve_atoi_some h, if_neg (hno num h), findMatch_eq_find? token folders]
  refine ⟨?_, hfind, ?_⟩
  · intro n hn h1 h2
    rw [jumpResolve_atoi_some hn, if_pos ⟨h1, h2⟩]
  · intro hno hmatch
    rw [hfind hno, List.find?_eq_none]
    intro f hf hb
    apply hmatch f hf
    simpa using hb

theorem C1_witness : jumpResolve ["/a/b", "/c/d"] "1" = some "/a/b" := by
  have h := (C1_resolver_contract ["/a/b", "/c/d"] "1").1 1 (by decide) (by decide)
    (by decide)
  rw [h]
  decide

/-- C2: when resolution succeeds, the jump verb writes exactly the
resolved path to standard output (no newline, no other text) and exits 0;
when resolution fails or the store cannot be read it writes nothing and
exits non-zero. -/
theorem C2_jump_output (content? : Option String) (arg : String) :
    (∀ c p, content? = some c → jumpResolve (readFolderList c) arg = some p →
      jumpToFolder content? arg = (p, 0)) ∧
    (∀ c, content? = some c → jumpResolve (readFolderList c) arg = none →
      jumpToFolder content? arg = ("", 1)) ∧
    (content? = none → jumpToFolder content? arg = ("", 1)) := by
  refine ⟨?_, ?_, ?_⟩
  · intro c p hc hres
    subst hc
    exact jumpToFolder_resolved hres
  · intro c hc hres
    subst hc
    exact jumpToFolder_unresolved hres
  · intro hc
    subst hc
    rfl

theorem C2_witness : jumpToFolder (some "/a/b\n") "b" = ("/a/b", 0) :=
  (C2_jump_output (some "/a/b\n") "b").1 "/a/b\n" "/a/b" rfl (by decide)

/-- C3 counterexample: on the empty stored list every token matches no
entry, yet `remove` exits 0 (with an informational message) instead of
failing with NotFound as claimed. -/
theorem C3_counterexample :
    readFolderList "" = [] ∧ (removeFolder "" "x").exitCode = 0 := by decide

/-- C3 (amended): for every NON-EMPTY stored list and every token that
matches no entry, the remove verb fails (exit 1), reports the token on
the error stream, and leaves the stored list unchanged. -/
theorem C3_remove_notfound (c token : String) (hne : readFolderList c ≠ [])
    (hnf : removeIndex (readFolderList c) token = none) :
    removeFolder c token = ⟨c, "", "Folder not found: " ++ token ++ "\n", 1⟩ :=
  removeFolder_notfound hne hnf

theorem C3_witness :
    removeFolder "/a\n" "z" = ⟨"/a\n", "", "Folder not found: z\n", 1⟩ :=
  C3_remove_notfound "/a\n" "z" (by decide) (by decide)

/-- C4: for every non-empty stored list, the list verb emits each path
prefixed with its 1-based index, one per line, in stored order (after a
header line); after adding `/home/u/proj` to an empty store, the output
contains exactly the line `1. /home/u/proj` below the header. -/
theorem C4_list_output :
    (∀ c, readFolderList c ≠ [] →
      listFolders c = ("Available folders:\n" ++
        joinStrings (((readFolderList c).enum).map
          (fun pr => toString (pr.1 + 1) ++ ". " ++ pr.2 ++ "\n")), 0)) ∧
    (listFolders (addFolder "" "/home/u/proj").newContent).1 =
      "Available folders:\n" ++ "1. /home/u/proj\n" := by
  constructor
  · intro c h
    simp only [listFolders]
    rw [if_neg h, listLines_eq_enumFrom (readFolderList c) 0]
    rfl
  · decide

theorem C4_witness :
    listFolders "/home/u/proj\n" = ("Available folders:\n1. /home/u/proj\n", 0) := by
  have h := C4_list_output.1 "/home/u/proj\n" (by decide)
  rw [h]
  decide

/-- C7: for every file content, `readFolderList` returns the sequence of
the file's lines with surrounding whitespace trimmed, lines blank after
trimming discarded, and the remaining lines in file order. -/
theorem C7_loadAll_spec (c : String) :
    readFolderList c =
      ((splitOnNL c.data).map fun t => String.mk (trimList t)).filter
        (fun s => !(s == "")) :=
  readFolderList_eq_spec c

/-- C8: the token-matching logic duplicated between `removeFolder` and
`jumpToFolder` is equivalent: jump prints exactly the entry sitting at
the index remove selects, and both fail on the same tokens. -/
theorem C8_matching_equivalence (folders : List String) (arg : String) :
    jumpResolve folders arg = (removeIndex folders arg).bind folders.get? := by
  cases h : atoi arg with
  | none =>
    rw [jumpResolve_atoi_none h, removeIndex_atoi_none h]
    exact findMatch_eq_idx arg folders
  | some num =>
    rw [jumpResolve_atoi_some h, removeIndex_atoi_some h]
    by_cases hcond : 0 < num ∧ num ≤ (folders.length : Int)
    · rw [if_pos hcond, if_pos hcond]
      rfl
    · rw [if_neg hcond, if_neg hcond]
      exact findMatch_eq_idx arg folders

/-- C9: for every sequence of non-empty strings with no surrounding
whitespace and no newline characters, writing each element followed by a
newline and reading the result back with `readFolderList` yields exactly
the original sequence. -/
theorem C9_rewrite_load_roundtrip (l : List String)
    (h : ∀ p ∈ l, cleanEntry p = true) :
    readFolderList (writeLines l) = l :=
  readFolderList_writeLines l h

theorem C9_witness :
    readFolderList (writeLines ["/a/b", "/c d"]) = ["/a/b", "/c d"] :=
  C9_rewrite_load_roundtrip ["/a/b", "/c d"] (by decide)

/-- C10: for every token, invoking remove on an empty stored list prints
an informational message to standard output, exits 0, and leaves the
store file untouched. -/
theorem C10_remove_empty_store (c arg : String) (h : readFolderList c = []) :
    removeFolder c arg = ⟨c, "No folders in jump list.\n", "", 0⟩ :=
  removeFolder_empty h

theorem C10_witness :
    removeFolder "" "x" = ⟨"", "No folders in jump list.\n", "", 0⟩ :=
  C10_remove_empty_store "" "x" (by decide)

/-- C5 counterexample: with a store already holding two copies of `/a`
(duplicates are prevented only at add time, not at load time), running
add twice from `/a` leaves a stored list with two entries equal to `/a`,
not exactly one. -/
theorem C5_counterexample :
    (readFolderList (addFolder (addFolder "/a\n/a\n" "/a").newContent
      "/a").newContent).count "/a" = 2 := by decide

/-- C5 (amended): for every store whose content is empty or
newline-terminated and holds at most one entry equal to `p`, and every
working directory `p` that is a non-empty, whitespace-clean, newline-free
string, running add twice from `p` yields a stored list with exactly one
entry equal to `p`, and the second add emits the already-present message
without mutating the store. -/
theorem C5_add_idempotent (c p : String)
    (hterm : c.data = [] ∨ c.data.getLast? = some '\n')
    (hp : cleanEntry p = true)
    (hdup : (readFolderList c).count p ≤ 1) :
    (readFolderList (addFolder (addFolder c p).newContent p).newContent).count p = 1 ∧
    (addFolder (addFolder c p).newContent p).stdout =
      "Current folder already in the list: " ++ p ++ "\n" ∧
    (addFolder (addFolder c p).newContent p).newContent = (addFolder c p).newContent := by
  by_cases hmem : p ∈ readFolderList c
  · have e1 : (addFolder c p).newContent = c := addFolder_mem_newContent hmem
    have hmem1 : p ∈ readFolderList (addFolder c p).newContent := by
      rw [e1]
      exact hmem
    have hcount : (readFolderList c).count p = 1 := by
      have hpos := List.count_pos_iff.mpr hmem
      omega
    refine ⟨?_, addFolder_mem_stdout hmem1, addFolder_mem_newContent hmem1⟩
    rw [addFolder_mem_newContent hmem1, e1]
    exact hcount
  · have e1 : (addFolder c p).newContent = c ++ p ++ "\n" :=
      addFolder_not_mem_newContent hmem
    have hlist : readFolderList (addFolder c p).newContent =
        readFolderList c ++ [p] := by
      rw [e1]
      exact readFolderList_append_entry c p hterm hp
    have hmem1 : p ∈ readFolderList (addFolder c p).newContent := by
      rw [hlist]
      exact List.mem_append_right _ (by simp)
    have hcount0 : (readFolderList c).count p = 0 := List.count_eq_zero.mpr hmem
    refine ⟨?_, addFolder_mem_stdout hmem1, addFolder_mem_newContent hmem1⟩
    rw [addFolder_mem_newContent hmem1, hlist, List.count_append, hcount0]
    simp

theorem C5_witness :
    (readFolderList (addFolder (addFolder "" "/a").newContent
        "/a").newContent).count "/a" = 1 ∧
    (addFolder (addFolder "" "/a").newContent "/a").stdout =
      "Current folder already in the list: " ++ "/a" ++ "\n" ∧
    (addFolder (addFolder "" "/a").newContent "/a").newContent =
      (addFolder "" "/a").newContent :=
  C5_add_idempotent "" "/a" (Or.inl rfl) (by decide) (by decide)

/-- C6 counterexample: with a store holding two copies of `/a`, add is a
no-op and `/a` sits at both indices of the two-element list, yet removing
either index leaves a list that still includes `/a`. -/
theorem C6_counterexample :
    (readFolderList (addFolder "/a\n/a\n" "/a").newContent).length = 2 ∧
    (readFolderList (addFolder "/a\n/a\n" "/a").newContent).get? 0 = some "/a" ∧
    (readFolderList (addFolder "/a\n/a\n" "/a").newContent).get? 1 = some "/a" ∧
    "/a" ∈ readFolderList
      (removeFolder (addFolder "/a\n/a\n" "/a").newContent "1").newContent ∧
    "/a" ∈ readFolderList
      (removeFolder (addFolder "/a\n/a\n" "/a").newContent "2").newContent := by
  decide

/-- C6 (amended): for every store whose content is empty or
newline-terminated and holds at most one entry equal to `p`, and every
non-empty, whitespace-clean, newline-free working directory `p`: after
add(p) the list includes `p` at some index `i`, and any remove whose
token resolves to that index leaves a list that no longer includes `p`,
keeps every entry before `i` at its index, and shifts every entry after
the removed one down by exactly one index. -/
theorem C6_add_remove_roundtrip (c p : String)
    (hterm : c.data = [] ∨ c.data.getLast? = some '\n')
    (hp : cleanEntry p = true)
    (hdup : (readFolderList c).count p ≤ 1) :
    ∃ i, (readFolderList (addFolder c p).newContent).get? i = some p ∧
      ∀ tok, removeIndex (readFolderList (addFolder c p).newContent) tok = some i →
        (p ∉ readFolderList (removeFolder (addFolder c p).newContent tok).newContent ∧
          (∀ j, j < i →
            (readFolderList
              (removeFolder (addFolder c p).newContent tok).newContent).get? j =
              (readFolderList (addFolder c p).newContent).get? j) ∧
          (∀ j, i < j →
            (readFolderList
              (removeFolder (addFolder c p).newContent tok).newContent).get? (j - 1) =
              (readFolderList (addFolder c p).newContent).get? j)) := by
  have hkey : (readFolderList (addFolder c p).newContent).count p = 1 := by
    by_cases hmem : p ∈ readFolderList c
    · rw [addFolder_mem_newContent hmem]
      have hpos := List.count_pos_iff.mpr hmem
      omega
    · rw [addFolder_not_mem_newContent hmem,
        readFolderList_append_entry c p hterm hp, List.count_append,
        List.count_eq_zero.mpr hmem]
      simp
  have hmem' : p ∈ readFolderList (addFolder c p).newContent :=
    List.count_pos_iff.mp (by omega)
  obtain ⟨i, hi⟩ := List.mem_iff_get?.mp hmem'
  refine ⟨i, hi, ?_⟩
  intro tok htok
  have hne : readFolderList (addFolder c p).newContent ≠ [] := by
    intro h0
    rw [h0] at hi
    simp at hi
  have hnewlist :
      readFolderList (removeFolder (addFolder c p).newContent tok).newContent =
        (readFolderList (addFolder c p).newContent).eraseIdx i := by
    rw [removeFolder_found_newContent hne htok]
    apply readFolderList_writeLines
    intro q hq
    exact clean_of_mem_readFolderList _ q (mem_of_mem_eraseIdx _ i hq)
  have herase := count_eraseIdx_succ _ i p hi
  refine ⟨?_, ?_, ?_⟩
  · rw [hnewlist]
    apply List.count_eq_zero.mp
    omega
  · intro j hj
    rw [hnewlist]
    exact eraseIdx_get?_lt _ i j hj
  · intro j hj
    rw [hnewlist, eraseIdx_get?_ge _ i (j - 1) (by omega),
      show j - 1 + 1 = j by omega]

theorem C6_witness :
    "/a" ∉ readFolderList
      (removeFolder (addFolder "" "/a").newContent "1").newContent := by
  obtain ⟨i, hi, hrest⟩ :=
    C6_add_remove_roundtrip "" "/a" (Or.inl rfl) (by decide) (by decide)
  have hl : readFolderList (addFolder "" "/a").newContent = ["/a"] := by decide
  rw [hl] at hi
  simp only [hl] at hrest
  cases i with
  | zero => exact (hrest "1" (by decide)).1
  | succ n => simp at hi

example : readFolderList "/a/b\n  \n/c d\n" = ["/a/b", "/c d"] := by decide
example : readFolderList "" = [] := by decide
example : base "/a/b" = "b" := by decide
example : base "/a/b//" = "b" := by decide
example : base "" = "." := by decide
example : base "///" = "/" := by decide
example : atoi "12" = some 12 := by decide
example : atoi "+3" = some 3 := by decide
example : atoi "-3" = some (-3) := by decide
example : atoi "" = none := by decide
example : atoi "3x" = none := by decide
example : jumpResolve ["/a/b", "/c/d"] "1" = some "/a/b" := by decide
example : jumpResolve ["/a/b", "/c/d"] "d" = some "/c/d" := by decide
example : jumpResolve ["/a/b", "/c/d"] "99" = none := by decide
example : jumpResolve ["/a/b", "/c/d"] "/a/b" = some "/a/b" := by decide
example : removeIndex ["/a/b", "/c/d"] "2" = some 1 := by decide
example : (removeFolder "" "x").exitCode = 0 := by decide
example : (removeFolder "/a\n" "z").exitCode = 1 := by decide
example : (listFolders "/home/u/proj\n").1 = "Available folders:\n1. /home/u/proj\n" := by decide
example : (addFolder "" "/a").newContent = "/a\n" := by decide
example : cleanEntry "/a b" = true := by decide
example : cleanEntry " a" = false := by decide

end Jumper
